import Mathlib

/-!
Verification development for `src/applications/juxta-mvp/subfolder_list_fixed.py`.

The script parses `--directory`, `--out-file`, `--trigger-file` (ignoring unknown
arguments via `parse_known_args`), ensures the parent directories of the two output
paths exist (`os.makedirs(..., exist_ok=True)`), collects the immediate
subdirectories of the target directory, sorts them, writes them newline-joined to
the output file, and finally creates an empty trigger file.

The filesystem is modelled as a map from path strings to node entries together with
an enumeration function giving the order `os.listdir` returns child names in.
Paths are kept as literal strings; path normalisation (collapsing `.` or trailing
slashes) is not modelled, so some theorems carry hypotheses confining them to
already-normalised paths.
-/

namespace Juxta

/-- A filesystem node: a regular file with contents, a directory, or a symbolic
link to a file or to a directory (`os.path.isdir` follows links, so a link to a
directory satisfies the script's directory test). -/
inductive Entry where
  | file (content : String)
  | dir
  | symlinkToFile (content : String)
  | symlinkToDir
deriving DecidableEq

/-- Filesystem state: `entry` maps a path string to the node stored there (if any);
`listing` gives, for a directory path, the child names in the order `os.listdir`
would enumerate them. -/
structure FS where
  entry : String → Option Entry
  listing : String → List String

/-- Errors raised by the modelled OS calls. -/
inductive Err where
  | fileNotFound
  | fileExists
  | notADirectory
  | isADirectory
deriving DecidableEq

/-- Model of `os.path.isdir`: true for a directory or a symlink to a directory. -/
def isdir (fs : FS) (p : String) : Bool :=
  match fs.entry p with
  | some Entry.dir => true
  | some Entry.symlinkToDir => true
  | _ => false

/-- Model of `os.path.exists`: any entry at the path. -/
def pexists (fs : FS) (p : String) : Bool :=
  (fs.entry p).isSome

/-- Model of `posixpath.split`: split a path at its final slash, stripping
trailing slashes from the head unless the head consists only of slashes. -/
def splitPath (p : String) : String × String :=
  let rev := p.data.reverse
  let tailRev := rev.takeWhile (fun c => c ≠ '/')
  let headRev := rev.dropWhile (fun c => c ≠ '/')
  let headChars :=
    if headRev ≠ [] ∧ headRev.any (fun c => c ≠ '/') then
      (headRev.dropWhile (fun c => c = '/')).reverse
    else
      headRev.reverse
  (String.mk headChars, String.mk tailRev.reverse)

/-- Model of `os.path.dirname`. -/
def dirname (p : String) : String :=
  (splitPath p).1

theorem length_mk (l : List Char) : (String.mk l).length = l.length := rfl

theorem splitPath_fst_length_le (p : String) : (splitPath p).1.length ≤ p.length := by
  unfold splitPath
  simp only [length_mk]
  split
  · calc ((p.data.reverse.dropWhile (fun c => c ≠ '/')).dropWhile (fun c => c = '/')).reverse.length
        = ((p.data.reverse.dropWhile (fun c => c ≠ '/')).dropWhile (fun c => c = '/')).length := by
          rw [List.length_reverse]
      _ ≤ (p.data.reverse.dropWhile (fun c => c ≠ '/')).length := (List.dropWhile_sublist _).length_le
      _ ≤ p.data.reverse.length := (List.dropWhile_sublist _).length_le
      _ = p.length := by rw [List.length_reverse]; rfl
  · calc (p.data.reverse.dropWhile (fun c => c ≠ '/')).reverse.length
        = (p.data.reverse.dropWhile (fun c => c ≠ '/')).length := by rw [List.length_reverse]
      _ ≤ p.data.reverse.length := (List.dropWhile_sublist _).length_le
      _ = p.length := by rw [List.length_reverse]; rfl

theorem mk_ne_empty_iff (l : List Char) : String.mk l ≠ "" ↔ l ≠ [] := by
  constructor
  · intro h hl
    exact h (by rw [hl])
  · intro h hs
    exact h (congrArg String.data hs)

theorem splitPath_fst_length_lt (p : String) (h : (splitPath p).2 ≠ "") :
    (splitPath p).1.length < p.length := by
  have htail : (p.data.reverse.takeWhile (fun c => c ≠ '/')) ≠ [] := by
    intro hnil
    apply h
    show String.mk (p.data.reverse.takeWhile (fun c => c ≠ '/')).reverse = ""
    rw [hnil]
    rfl
  have hlen : (p.data.reverse.takeWhile (fun c => c ≠ '/')).length
      + (p.data.reverse.dropWhile (fun c => c ≠ '/')).length = p.data.reverse.length := by
    conv_rhs => rw [← List.takeWhile_append_dropWhile (p := fun c => c ≠ '/') (l := p.data.reverse)]
    rw [List.length_append]
  have hpos : 0 < (p.data.reverse.takeWhile (fun c => c ≠ '/')).length :=
    List.length_pos.mpr htail
  have hdrop : (p.data.reverse.dropWhile (fun c => c ≠ '/')).length < p.length := by
    have : p.data.reverse.length = p.length := by rw [List.length_reverse]; rfl
    omega
  unfold splitPath
  simp only [length_mk]
  split
  · calc ((p.data.reverse.dropWhile (fun c => c ≠ '/')).dropWhile (fun c => c = '/')).reverse.length
        = ((p.data.reverse.dropWhile (fun c => c ≠ '/')).dropWhile (fun c => c = '/')).length := by
          rw [List.length_reverse]
      _ ≤ (p.data.reverse.dropWhile (fun c => c ≠ '/')).length := (List.dropWhile_sublist _).length_le
      _ < p.length := hdrop
  · calc (p.data.reverse.dropWhile (fun c => c ≠ '/')).reverse.length
        = (p.data.reverse.dropWhile (fun c => c ≠ '/')).length := by rw [List.length_reverse]
      _ < p.length := hdrop

/-- The head/tail pair `os.makedirs` works with: `posixpath.split`, re-split once
when the tail is empty (i.e. when the path ends in a slash). -/
def adjSplit (p : String) : String × String :=
  let ht := splitPath p
  if ht.2 = "" then splitPath ht.1 else ht

theorem adjSplit_fst_length_lt (p : String) (h : (adjSplit p).2 ≠ "") :
    (adjSplit p).1.length < p.length := by
  unfold adjSplit at h ⊢
  by_cases h0 : (splitPath p).2 = ""
  · simp only [h0, if_pos rfl] at h ⊢
    calc (splitPath (splitPath p).1).1.length
        < (splitPath p).1.length := splitPath_fst_length_lt _ h
      _ ≤ p.length := splitPath_fst_length_le p
  · simp only [if_neg h0] at h ⊢
    exact splitPath_fst_length_lt p h

/-- Insert a node at path `p`, also recording its name in the enumeration of its
parent directory. -/
def addNode (fs : FS) (p : String) (e : Entry) : FS :=
  { entry := fun q => if q = p then some e else fs.entry q,
    listing := fun q =>
      if q = (splitPath p).1 then fs.listing q ++ [(splitPath p).2] else fs.listing q }

/-- Model of `os.mkdir`: fails on the empty path, on an existing target, and on a
missing or non-directory parent. -/
def mkdir (fs : FS) (p : String) : Except Err FS :=
  if p = "" then Except.error Err.fileNotFound
  else if pexists fs p then Except.error Err.fileExists
  else if (splitPath p).1 ≠ "" ∧ pexists fs (splitPath p).1 = false then
    Except.error Err.fileNotFound
  else if (splitPath p).1 ≠ "" ∧ isdir fs (splitPath p).1 = false then
    Except.error Err.notADirectory
  else Except.ok (addNode fs p Entry.dir)

/-- The `mkdir` call at the end of `os.makedirs(..., exist_ok=True)`: an `OSError`
is swallowed when the target is a directory. -/
def mkdirEx (fs : FS) (p : String) : Except Err FS :=
  match mkdir fs p with
  | Except.error e => if isdir fs p then Except.ok fs else Except.error e
  | Except.ok fs1 => Except.ok fs1

/-- Fuel-indexed model of `os.makedirs(name, exist_ok=True)`: recursively create
the missing ancestors, skip the final `mkdir` when the tail is `.`, and tolerate
an existing directory at the target.  The fuel only serves structural recursion;
`name.length + 1` is always enough. -/
def makedirsAux : Nat → FS → String → Except Err FS
  | 0, fs, name => mkdirEx fs name
  | fuel + 1, fs, name =>
      if (adjSplit name).1 ≠ "" ∧ (adjSplit name).2 ≠ ""
          ∧ pexists fs (adjSplit name).1 = false then
        match makedirsAux fuel fs (adjSplit name).1 with
        | Except.error e => Except.error e
        | Except.ok fs1 =>
            if (adjSplit name).2 = "." then Except.ok fs1 else mkdirEx fs1 name
      else
        mkdirEx fs name

/-- Model of `os.makedirs(name, exist_ok=True)`. -/
def makedirs (fs : FS) (name : String) : Except Err FS :=
  makedirsAux (name.length + 1) fs name

theorem makedirsAux_fuel : ∀ (fuel : Nat) (fs : FS) (name : String),
    name.length < fuel → makedirsAux fuel fs name = makedirs fs name := by
  intro fuel
  induction fuel using Nat.strong_induction_on with
  | _ fuel ih =>
    intro fs name h
    cases fuel with
    | zero => omega
    | succ f =>
        show makedirsAux (f + 1) fs name = makedirsAux (name.length + 1) fs name
        by_cases hg : (adjSplit name).1 ≠ "" ∧ (adjSplit name).2 ≠ ""
            ∧ pexists fs (adjSplit name).1 = false
        · have hlt : (adjSplit name).1.length < name.length :=
            adjSplit_fst_length_lt name hg.2.1
          have h1 : makedirsAux f fs (adjSplit name).1 = makedirs fs (adjSplit name).1 :=
            ih f (Nat.lt_succ_self f) fs (adjSplit name).1 (by omega)
          have h2 : makedirsAux name.length fs (adjSplit name).1
              = makedirs fs (adjSplit name).1 :=
            ih name.length (by omega) fs (adjSplit name).1 hlt
          simp only [makedirsAux, if_pos hg, h1, h2]
        · simp only [makedirsAux, if_neg hg]

/-- Unfolding equation for `makedirs`, phrased with `makedirs` itself in the
recursive position. -/
theorem makedirs_eq (fs : FS) (name : String) :
    makedirs fs name =
      if (adjSplit name).1 ≠ "" ∧ (adjSplit name).2 ≠ ""
          ∧ pexists fs (adjSplit name).1 = false then
        match makedirs fs (adjSplit name).1 with
        | Except.error e => Except.error e
        | Except.ok fs1 =>
            if (adjSplit name).2 = "." then Except.ok fs1 else mkdirEx fs1 name
      else
        mkdirEx fs name := by
  show makedirsAux (name.length + 1) fs name = _
  by_cases hg : (adjSplit name).1 ≠ "" ∧ (adjSplit name).2 ≠ ""
      ∧ pexists fs (adjSplit name).1 = false
  · have hlt : (adjSplit name).1.length < name.length :=
      adjSplit_fst_length_lt name hg.2.1
    simp only [makedirsAux, if_pos hg,
      makedirsAux_fuel name.length fs (adjSplit name).1 hlt]
  · simp only [makedirsAux, if_neg hg]

/-- True when the first character of the string is a slash. -/
def headIsSlash (s : String) : Bool :=
  match s.data with
  | [] => false
  | c :: _ => decide (c = '/')

/-- True when the last character of the string is a slash. -/
def lastIsSlash (s : String) : Bool :=
  match s.data.getLast? with
  | some c => decide (c = '/')
  | none => false

/-- Model of `os.path.join` for two arguments (posixpath): an absolute second
component replaces the first; otherwise a single separator is inserted unless the
first component is empty or already ends with one. -/
def pathJoin (a b : String) : String :=
  if headIsSlash b then b
  else if a = "" ∨ lastIsSlash a then a ++ b
  else a ++ "/" ++ b

/-- Lines 24-29 of the script: when the target is a directory, keep, in
enumeration order, the joined path of every child whose joined path is itself a
directory; otherwise the collected list is empty. -/
def scanSubdirs (fs : FS) (base : String) : List String :=
  if isdir fs base then
    (fs.listing base).filterMap (fun item =>
      if isdir fs (pathJoin base item) then some (pathJoin base item) else none)
  else []

/-- Lexicographic comparison of character lists by code point, the order Python
uses to compare strings. -/
def lexLe : List Char → List Char → Bool
  | [], _ => true
  | _ :: _, [] => false
  | a :: as, b :: bs =>
      if a.toNat < b.toNat then true
      else if b.toNat < a.toNat then false
      else lexLe as bs

/-- Python string comparison: lexicographic by code point (for UTF-8 encoded
text this coincides with byte-wise comparison). -/
def strLe (a b : String) : Bool :=
  lexLe a.data b.data

theorem lexLe_total : ∀ as bs : List Char, lexLe as bs = true ∨ lexLe bs as = true
  | [], _ => Or.inl rfl
  | _ :: _, [] => Or.inr rfl
  | a :: as, b :: bs => by
      by_cases hab : a.toNat < b.toNat
      · left
        simp [lexLe, hab]
      · by_cases hba : b.toNat < a.toNat
        · right
          simp [lexLe, hba]
        · rcases lexLe_total as bs with h | h
          · left
            simp [lexLe, hab, hba, h]
          · right
            simp [lexLe, hab, hba, h]

theorem lexLe_cons_iff (a b : Char) (as bs : List Char) :
    lexLe (a :: as) (b :: bs) = true ↔
      a.toNat < b.toNat ∨ (a.toNat = b.toNat ∧ lexLe as bs = true) := by
  simp only [lexLe]
  by_cases hab : a.toNat < b.toNat
  · simp [hab]
  · by_cases hba : b.toNat < a.toNat
    · simp [hab, hba]
      omega
    · have he : a.toNat = b.toNat := by omega
      simp [hab, hba, he]

theorem lexLe_trans : ∀ as bs cs : List Char,
    lexLe as bs = true → lexLe bs cs = true → lexLe as cs = true
  | [], _, _ => fun _ _ => rfl
  | _ :: _, [], _ => fun h _ => by simp [lexLe] at h
  | _ :: _, _ :: _, [] => fun _ h => by simp [lexLe] at h
  | a :: as, b :: bs, c :: cs => fun h1 h2 => by
      rw [lexLe_cons_iff] at h1 h2 ⊢
      rcases h1 with h1 | ⟨h1e, h1r⟩
      · rcases h2 with h2 | ⟨h2e, _⟩
        · exact Or.inl (by omega)
        · exact Or.inl (by omega)
      · rcases h2 with h2 | ⟨h2e, h2r⟩
        · exact Or.inl (by omega)
        · exact Or.inr ⟨by omega, lexLe_trans as bs cs h1r h2r⟩

theorem lexLe_antisymm : ∀ as bs : List Char,
    lexLe as bs = true → lexLe bs as = true → as = bs
  | [], [] => fun _ _ => rfl
  | [], _ :: _ => fun _ h => by simp [lexLe] at h
  | _ :: _, [] => fun h _ => by simp [lexLe] at h
  | a :: as, b :: bs => fun h1 h2 => by
      simp only [lexLe] at h1 h2
      by_cases hab : a.toNat < b.toNat
      · have hba : ¬ b.toNat < a.toNat := by omega
        simp [hab, hba] at h1 h2
      · by_cases hba : b.toNat < a.toNat
        · simp [hab, hba] at h1 h2
        · simp [hab, hba] at h1 h2
          have hv : a = b := Char.ext (UInt32.toNat.inj (show a.toNat = b.toNat by omega))
          rw [hv, lexLe_antisymm as bs h1 h2]

theorem strLe_total (a b : String) : strLe a b = true ∨ strLe b a = true :=
  lexLe_total a.data b.data

theorem strLe_trans {a b c : String} (h1 : strLe a b = true) (h2 : strLe b c = true) :
    strLe a c = true :=
  lexLe_trans a.data b.data c.data h1 h2

theorem strLe_antisymm {a b : String} (h1 : strLe a b = true) (h2 : strLe b a = true) :
    a = b := by
  cases a with
  | mk da =>
      cases b with
      | mk db => exact congrArg String.mk (lexLe_antisymm da db h1 h2)

/-- The sorting relation used to model Python `sorted` on strings. -/
def pyLe (a b : String) : Prop :=
  strLe a b = true

instance : DecidableRel pyLe := fun a b => instDecidableEqBool (strLe a b) true

instance : IsTotal String pyLe := ⟨strLe_total⟩

instance : IsTrans String pyLe := ⟨fun _ _ _ => strLe_trans⟩

instance : IsAntisymm String pyLe := ⟨fun _ _ => strLe_antisymm⟩

/-- Model of Python `sorted` on strings: sort ascending by the lexicographic
code-point order. -/
def sortStrings (l : List String) : List String :=
  l.insertionSort pyLe

/-- The sorted list of retained subdirectory paths. -/
def sortedListing (fs : FS) (base : String) : List String :=
  sortStrings (scanSubdirs fs base)

/-- Line 33 of the script: the exact string written to the output file. -/
def outPayload (fs : FS) (base : String) : String :=
  String.intercalate "\n" (sortedListing fs base)

/-- Model of `open(p, "w")` followed by writing `c`: fails on an empty path, on a
directory target, or on a missing/non-directory parent of a new file; otherwise
replaces or creates the file with exactly `c` as its contents. -/
def writeFile (fs : FS) (p : String) (c : String) : Except Err FS :=
  if p = "" then Except.error Err.fileNotFound
  else
    match fs.entry p with
    | some Entry.dir => Except.error Err.isADirectory
    | some Entry.symlinkToDir => Except.error Err.isADirectory
    | some (Entry.file _) =>
        Except.ok { fs with entry := fun q => if q = p then some (Entry.file c) else fs.entry q }
    | some (Entry.symlinkToFile _) =>
        Except.ok { fs with entry := fun q => if q = p then some (Entry.file c) else fs.entry q }
    | none =>
        if (splitPath p).1 ≠ "" ∧ isdir fs (splitPath p).1 = false then
          Except.error Err.fileNotFound
        else Except.ok (addNode fs p (Entry.file c))

/-- Parsed command-line options of the script. -/
structure Args where
  directory : String
  out_file : String
  trigger_file : String
deriving DecidableEq

/-- Observable steps of one execution, in program order: a `makedirs` call, the
directory enumeration, the output-file write (line 32), the trigger-file write
(line 37). -/
inductive Event where
  | evMakedirs (p : String)
  | evScan (p : String)
  | evWriteOut (p : String) (content : String)
  | evWriteTrigger (p : String)
deriving DecidableEq

/-- Outcome of a (partial) execution: final state or error, together with the
trace of steps attempted so far. -/
abbrev M := Except Err FS × List Event

/-- Sequence two traced steps, accumulating the trace and stopping at the first
error. -/
def andThen (m : M) (f : FS → M) : M :=
  match m with
  | (Except.error e, tr) => (Except.error e, tr)
  | (Except.ok fs, tr) =>
      match f fs with
      | (r, tr2) => (r, tr ++ tr2)

/-- A traced `os.makedirs` step. -/
def mdStep (fs : FS) (p : String) : M :=
  (makedirs fs p, [Event.evMakedirs p])

/-- The traced output-file write of line 32. -/
def wrOutStep (fs : FS) (p : String) (c : String) : M :=
  (writeFile fs p c, [Event.evWriteOut p c])

/-- The traced trigger-file write of line 37 (`f.write("")`). -/
def wrTrigStep (fs : FS) (p : String) : M :=
  (writeFile fs p "", [Event.evWriteTrigger p])

/-- Lines 19-38 of `main`: makedirs for the output parent, makedirs for the
trigger parent when the trigger path is non-empty (Python truthiness), the scan,
the output write, and the trigger write when the trigger path is non-empty. -/
def run (fs0 : FS) (a : Args) : M :=
  andThen (mdStep fs0 (dirname a.out_file)) (fun fs1 =>
  andThen (if a.trigger_file ≠ "" then mdStep fs1 (dirname a.trigger_file)
           else (Except.ok fs1, [])) (fun fs2 =>
  andThen ((Except.ok fs2, [Event.evScan a.directory]) : M) (fun fs2b =>
  andThen (wrOutStep fs2b a.out_file (outPayload fs2b a.directory)) (fun fs3 =>
  if a.trigger_file ≠ "" then wrTrigStep fs3 a.trigger_file else (Except.ok fs3, [])))))

/-- Fuel-indexed overapproximation of the set of paths `makedirs name` may create
a directory at: the path itself and the heads it can recurse on. -/
def mdTargetsAux : Nat → String → List String
  | 0, name => [name]
  | fuel + 1, name =>
      if (adjSplit name).1 ≠ "" ∧ (adjSplit name).2 ≠ "" then
        name :: mdTargetsAux fuel (adjSplit name).1
      else
        [name]

/-- The paths `makedirs name` may create a directory at. -/
def mdTargets (name : String) : List String :=
  mdTargetsAux (name.length + 1) name

theorem mdTargetsAux_fuel : ∀ (fuel : Nat) (name : String),
    name.length < fuel → mdTargetsAux fuel name = mdTargets name := by
  intro fuel
  induction fuel using Nat.strong_induction_on with
  | _ fuel ih =>
    intro name h
    cases fuel with
    | zero => omega
    | succ f =>
        show mdTargetsAux (f + 1) name = mdTargetsAux (name.length + 1) name
        by_cases hg : (adjSplit name).1 ≠ "" ∧ (adjSplit name).2 ≠ ""
        · have hlt : (adjSplit name).1.length < name.length :=
            adjSplit_fst_length_lt name hg.2
          have h1 : mdTargetsAux f (adjSplit name).1 = mdTargets (adjSplit name).1 :=
            ih f (Nat.lt_succ_self f) (adjSplit name).1 (by omega)
          have h2 : mdTargetsAux name.length (adjSplit name).1 = mdTargets (adjSplit name).1 :=
            ih name.length (by omega) (adjSplit name).1 hlt
          simp only [mdTargetsAux, if_pos hg, h1, h2]
        · simp only [mdTargetsAux, if_neg hg]

/-- Unfolding equation for `mdTargets`. -/
theorem mdTargets_eq (name : String) :
    mdTargets name =
      if (adjSplit name).1 ≠ "" ∧ (adjSplit name).2 ≠ "" then
        name :: mdTargets (adjSplit name).1
      else
        [name] := by
  show mdTargetsAux (name.length + 1) name = _
  by_cases hg : (adjSplit name).1 ≠ "" ∧ (adjSplit name).2 ≠ ""
  · have hlt : (adjSplit name).1.length < name.length :=
      adjSplit_fst_length_lt name hg.2
    simp only [mdTargetsAux, if_pos hg,
      mdTargetsAux_fuel name.length (adjSplit name).1 hlt]
  · simp only [mdTargetsAux, if_neg hg]

/-- Every path the run may write an entry at: the makedirs chains of both parent
directories plus the two files themselves. -/
def touchedPaths (a : Args) : List String :=
  mdTargets (dirname a.out_file)
    ++ (if a.trigger_file ≠ "" then mdTargets (dirname a.trigger_file) else [])
    ++ [a.out_file]
    ++ (if a.trigger_file ≠ "" then [a.trigger_file] else [])

/-- Every directory whose enumeration the run may extend: the parents of the
touched paths. -/
def touchedParents (a : Args) : List String :=
  (touchedPaths a).map (fun r => (splitPath r).1)

/-- The three option strings the script's argparse parser defines. -/
def flagNames : List String := ["--directory", "--out-file", "--trigger-file"]

/-- The option-name part of a token, before any `=`. -/
def preOf (t : String) : String :=
  String.mk (t.data.takeWhile (fun c => c ≠ '='))

/-- The inline `=`-value of a token, when present. -/
def valOf (t : String) : Option String :=
  if (preOf t).length < t.length then some (String.mk (t.data.drop ((preOf t).length + 1)))
  else none

/-- Accumulated option values during parsing. -/
structure POpts where
  directory : Option String
  out_file : Option String
  trigger_file : Option String
deriving DecidableEq

/-- Store a recognised option value (argparse keeps the last occurrence). -/
def setOpt (o : POpts) (flag : String) (v : String) : POpts :=
  if flag = "--directory" then { o with directory := some v }
  else if flag = "--out-file" then { o with out_file := some v }
  else { o with trigger_file := some v }

/-- Errors of the modelled argument parser. -/
inductive ArgErr where
  | missingValue
  | ambiguousOption
  | missingRequired
deriving DecidableEq

/-- True when the token is a long-option token (starts with two dashes). -/
def isLongOpt (t : String) : Bool :=
  match t.data with
  | '-' :: '-' :: _ => true
  | _ => false

/-- An argparse long-option token is matched against the defined options by
prefix (abbreviations are accepted when unambiguous). -/
def optMatches (t : String) : List String :=
  flagNames.filter (fun f => (preOf t).data.isPrefixOf f.data)

/-- True when argparse would treat the token as (part of) one of the three
defined options rather than pass it through unrecognised. -/
def recognizedTok (t : String) : Bool :=
  isLongOpt t && !(optMatches t).isEmpty

/-- Model of `parser.parse_known_args()` for the script's parser: long-option
tokens matching a defined option (possibly abbreviated, possibly with an inline
`=`-value) consume a value; every other token is collected, in order, into the
remaining-arguments list; at the end the three required options must be present. -/
def parseKnown : List String → POpts → List String → Except ArgErr (Args × List String)
  | [], opts, rem =>
      match opts.directory, opts.out_file, opts.trigger_file with
      | some d, some o, some t =>
          Except.ok ({ directory := d, out_file := o, trigger_file := t }, rem.reverse)
      | _, _, _ => Except.error ArgErr.missingRequired
  | tok :: rest, opts, rem =>
      if isLongOpt tok then
        match optMatches tok with
        | [f] =>
            match valOf tok with
            | some v => parseKnown rest (setOpt opts f v) rem
            | none =>
                match rest with
                | v :: rest2 => parseKnown rest2 (setOpt opts f v) rem
                | [] => Except.error ArgErr.missingValue
        | [] => parseKnown rest opts (tok :: rem)
        | _ :: _ :: _ => Except.error ArgErr.ambiguousOption
      else parseKnown rest opts (tok :: rem)

/-- The whole script: parse the command line with `parse_known_args` (line 13),
then execute `main`'s filesystem steps with the three parsed paths; the remaining
arguments are dropped. -/
def mainArgv (fs0 : FS) (argv : List String) : Except ArgErr M :=
  match parseKnown argv ⟨none, none, none⟩ [] with
  | Except.error e => Except.error e
  | Except.ok (a, _) => Except.ok (run fs0 a)

theorem writeFile_ok_entry_self {fs fs' : FS} {p c : String}
    (h : writeFile fs p c = Except.ok fs') : fs'.entry p = some (Entry.file c) := by
  unfold writeFile at h
  split at h
  · exact absurd h (by simp)
  · split at h
    · exact absurd h (by simp)
    · exact absurd h (by simp)
    · injection h with h
      rw [← h]
      simp
    · injection h with h
      rw [← h]
      simp
    · split at h
      · exact absurd h (by simp)
      · injection h with h
        rw [← h]
        simp [addNode]

theorem writeFile_ok_entry_ne {fs fs' : FS} {p c q : String}
    (h : writeFile fs p c = Except.ok fs') (hq : q ≠ p) : fs'.entry q = fs.entry q := by
  unfold writeFile at h
  split at h
  · exact absurd h (by simp)
  · split at h
    · exact absurd h (by simp)
    · exact absurd h (by simp)
    · injection h with h
      rw [← h]
      simp [hq]
    · injection h with h
      rw [← h]
      simp [hq]
    · split at h
      · exact absurd h (by simp)
      · injection h with h
        rw [← h]
        simp [addNode, hq]

theorem writeFile_ok_listing_ne {fs fs' : FS} {p c q : String}
    (h : writeFile fs p c = Except.ok fs') (hq : q ≠ (splitPath p).1) :
    fs'.listing q = fs.listing q := by
  unfold writeFile at h
  split at h
  · exact absurd h (by simp)
  · split at h
    · exact absurd h (by simp)
    · exact absurd h (by simp)
    · injection h with h
      rw [← h]
    · injection h with h
      rw [← h]
    · split at h
      · exact absurd h (by simp)
      · injection h with h
        rw [← h]
        simp [addNode, hq]

theorem mkdirEx_ok_entry_ne {fs fs' : FS} {p q : String}
    (h : mkdirEx fs p = Except.ok fs') (hq : q ≠ p) : fs'.entry q = fs.entry q := by
  unfold mkdirEx mkdir at h
  split at h
  · rename_i e heq
    split at h
    · injection h with h
      rw [← h]
    · exact absurd h (by simp)
  · rename_i fs1 heq
    split at heq
    · exact absurd heq (by simp)
    · split at heq
      · exact absurd heq (by simp)
      · split at heq
        · exact absurd heq (by simp)
        · split at heq
          · exact absurd heq (by simp)
          · injection heq with heq
            injection h with h
            rw [← h, ← heq]
            simp [addNode, hq]

theorem mkdirEx_ok_listing_ne {fs fs' : FS} {p q : String}
    (h : mkdirEx fs p = Except.ok fs') (hq : q ≠ (splitPath p).1) :
    fs'.listing q = fs.listing q := by
  unfold mkdirEx mkdir at h
  split at h
  · rename_i e heq
    split at h
    · injection h with h
      rw [← h]
    · exact absurd h (by simp)
  · rename_i fs1 heq
    split at heq
    · exact absurd heq (by simp)
    · split at heq
      · exact absurd heq (by simp)
      · split at heq
        · exact absurd heq (by simp)
        · split at heq
          · exact absurd heq (by simp)
          · injection heq with heq
            injection h with h
            rw [← h, ← heq]
            simp [addNode, hq]

theorem isdir_pexists {fs : FS} {p : String} (h : isdir fs p = true) :
    pexists fs p = true := by
  unfold isdir at h
  unfold pexists
  cases he : fs.entry p with
  | none => rw [he] at h; exact absurd h (by simp)
  | some e => simp

theorem mkdirEx_ok_isdir {fs fs' : FS} {p : String}
    (h : mkdirEx fs p = Except.ok fs') : isdir fs' p = true := by
  unfold mkdirEx at h
  split at h
  · rename_i e heq
    split at h
    · rename_i hd
      injection h with h
      rw [← h]
      exact hd
    · exact absurd h (by simp)
  · rename_i fs1 heq
    unfold mkdir at heq
    split at heq
    · exact absurd heq (by simp)
    · split at heq
      · exact absurd heq (by simp)
      · split at heq
        · exact absurd heq (by simp)
        · split at heq
          · exact absurd heq (by simp)
          · injection heq with heq
            injection h with h
            rw [← h, ← heq]
            simp [isdir, addNode]

theorem mem_mdTargets_self (p : String) : p ∈ mdTargets p := by
  rw [mdTargets_eq]
  split
  · exact List.mem_cons_self p _
  · exact List.mem_singleton.mpr rfl

theorem makedirs_ok_isdir {fs fs' : FS} {p : String}
    (h : makedirs fs p = Except.ok fs') (ht : (adjSplit p).2 ≠ ".") :
    isdir fs' p = true := by
  rw [makedirs_eq] at h
  by_cases hg : (adjSplit p).1 ≠ "" ∧ (adjSplit p).2 ≠ ""
      ∧ pexists fs (adjSplit p).1 = false
  · rw [if_pos hg] at h
    cases hrec : makedirs fs (adjSplit p).1 with
    | error e =>
        rw [hrec] at h
        exact absurd h (by simp)
    | ok fs1 =>
        rw [hrec] at h
        try dsimp only at h
        rw [if_neg ht] at h
        exact mkdirEx_ok_isdir h
  · rw [if_neg hg] at h
    exact mkdirEx_ok_isdir h

theorem makedirs_noop {fs : FS} {p : String} (hd : isdir fs p = true)
    (hside : pexists fs (adjSplit p).1 = true ∨ (adjSplit p).1 = ""
      ∨ (adjSplit p).2 = "") :
    makedirs fs p = Except.ok fs := by
  rw [makedirs_eq]
  rw [if_neg (by
    rintro ⟨h1, h2, h3⟩
    rcases hside with hs | hs | hs
    · rw [hs] at h3; exact absurd h3 (by simp)
    · exact h1 hs
    · exact h2 hs)]
  unfold mkdirEx mkdir
  by_cases hp : p = ""
  · rw [if_pos hp]
    simp only [hd, if_true]
  · rw [if_neg hp]
    rw [if_pos (isdir_pexists hd)]
    simp only [hd, if_true]

theorem makedirs_frame_aux : ∀ (n : Nat) (p : String), p.length < n →
    ∀ (fs fs' : FS), makedirs fs p = Except.ok fs' →
      (∀ q, q ∉ mdTargets p → fs'.entry q = fs.entry q) ∧
      (∀ q, q ∉ (mdTargets p).map (fun r => (splitPath r).1) →
        fs'.listing q = fs.listing q) := by
  intro n
  induction n using Nat.strong_induction_on with
  | _ n ih =>
    intro p hlen fs fs' h
    rw [makedirs_eq] at h
    by_cases hmd : (adjSplit p).1 ≠ "" ∧ (adjSplit p).2 ≠ ""
    · have hcons : mdTargets p = p :: mdTargets (adjSplit p).1 := by
        rw [mdTargets_eq, if_pos hmd]
      have hlt : (adjSplit p).1.length < p.length := adjSplit_fst_length_lt p hmd.2
      split at h
      · rename_i hg
        split at h
        · exact absurd h (by simp)
        · rename_i fs1 hrec
          have hfr := ih p.length hlen (adjSplit p).1 hlt fs fs1 hrec
          split at h
          · injection h with h
            rw [← h]
            constructor
            · intro q hq
              rw [hcons] at hq
              exact hfr.1 q (fun hmem => hq (List.mem_cons_of_mem p hmem))
            · intro q hq
              rw [hcons] at hq
              exact hfr.2 q (fun hmem => hq (by
                simp only [List.map_cons, List.mem_cons] at hmem ⊢
                exact Or.inr hmem))
          · constructor
            · intro q hq
              rw [hcons] at hq
              have hqp : q ≠ p := fun he => hq (by rw [he]; exact List.mem_cons_self p _)
              rw [mkdirEx_ok_entry_ne h hqp]
              exact hfr.1 q (fun hmem => hq (List.mem_cons_of_mem p hmem))
            · intro q hq
              rw [hcons] at hq
              have hqp : q ≠ (splitPath p).1 := fun he => hq (by
                simp only [List.map_cons, List.mem_cons]
                exact Or.inl he)
              rw [mkdirEx_ok_listing_ne h hqp]
              exact hfr.2 q (fun hmem => hq (by
                simp only [List.map_cons, List.mem_cons] at hmem ⊢
                exact Or.inr hmem))
      · constructor
        · intro q hq
          have hqp : q ≠ p := fun he => hq (by rw [he]; exact mem_mdTargets_self p)
          exact mkdirEx_ok_entry_ne h hqp
        · intro q hq
          have hqp : q ≠ (splitPath p).1 := fun he => hq (by
            rw [he]
            exact List.mem_map_of_mem _ (mem_mdTargets_self p))
          exact mkdirEx_ok_listing_ne h hqp
    · have hsing : mdTargets p = [p] := by
        rw [mdTargets_eq, if_neg hmd]
      rw [if_neg (fun hg => hmd ⟨hg.1, hg.2.1⟩)] at h
      constructor
      · intro q hq
        rw [hsing] at hq
        have hqp : q ≠ p := fun he => hq (by rw [he]; exact List.mem_singleton.mpr rfl)
        exact mkdirEx_ok_entry_ne h hqp
      · intro q hq
        rw [hsing] at hq
        have hqp : q ≠ (splitPath p).1 := fun he => hq (by
          rw [he]
          exact List.mem_map_of_mem _ (List.mem_singleton.mpr rfl))
        exact mkdirEx_ok_listing_ne h hqp

theorem makedirs_entry_frame {fs fs' : FS} {p q : String}
    (h : makedirs fs p = Except.ok fs') (hq : q ∉ mdTargets p) :
    fs'.entry q = fs.entry q :=
  (makedirs_frame_aux (p.length + 1) p (Nat.lt_succ_self _) fs fs' h).1 q hq

theorem makedirs_listing_frame {fs fs' : FS} {p q : String}
    (h : makedirs fs p = Except.ok fs')
    (hq : q ∉ (mdTargets p).map (fun r => (splitPath r).1)) :
    fs'.listing q = fs.listing q :=
  (makedirs_frame_aux (p.length + 1) p (Nat.lt_succ_self _) fs fs' h).2 q hq

/-- The full trace of a run that reaches the final step. -/
def runTrace (a : Args) (payload : String) : List Event :=
  [Event.evMakedirs (dirname a.out_file)]
    ++ (if a.trigger_file ≠ "" then [Event.evMakedirs (dirname a.trigger_file)] else [])
    ++ [Event.evScan a.directory, Event.evWriteOut a.out_file payload]
    ++ (if a.trigger_file ≠ "" then [Event.evWriteTrigger a.trigger_file] else [])

theorem run_eq_of_steps {fs0 fs1 fs2 fs3 fs4 : FS} {a : Args}
    (h1 : makedirs fs0 (dirname a.out_file) = Except.ok fs1)
    (h2 : (if a.trigger_file ≠ "" then makedirs fs1 (dirname a.trigger_file)
           else Except.ok fs1) = Except.ok fs2)
    (h3 : writeFile fs2 a.out_file (outPayload fs2 a.directory) = Except.ok fs3)
    (h4 : (if a.trigger_file ≠ "" then writeFile fs3 a.trigger_file ""
           else Except.ok fs3) = Except.ok fs4) :
    run fs0 a = (Except.ok fs4, runTrace a (outPayload fs2 a.directory)) := by
  by_cases ht : a.trigger_file = ""
  · simp only [ht, ne_eq, not_true_eq_false, if_false] at h2 h4 ⊢
    injection h2 with h2
    injection h4 with h4
    subst h2
    subst h4
    unfold run mdStep wrOutStep runTrace
    simp only [ht, ne_eq, not_true_eq_false, if_false, h1, h3, andThen]
    rfl
  · simp only [ne_eq, ht, not_false_eq_true, if_true] at h2 h4 ⊢
    unfold run mdStep wrOutStep wrTrigStep runTrace
    simp only [ne_eq, ht, not_false_eq_true, if_true, h1, h2, h3, h4, andThen]
    rfl

theorem run_ok_cases {fs0 fs' : FS} {tr : List Event} {a : Args}
    (h : run fs0 a = (Except.ok fs', tr)) :
    ∃ fs1 fs2 fs3,
      makedirs fs0 (dirname a.out_file) = Except.ok fs1 ∧
      (if a.trigger_file ≠ "" then makedirs fs1 (dirname a.trigger_file)
        else Except.ok fs1) = Except.ok fs2 ∧
      writeFile fs2 a.out_file (outPayload fs2 a.directory) = Except.ok fs3 ∧
      (if a.trigger_file ≠ "" then writeFile fs3 a.trigger_file ""
        else Except.ok fs3) = Except.ok fs' ∧
      tr = runTrace a (outPayload fs2 a.directory) := by
  by_cases ht : a.trigger_file = ""
  · unfold run mdStep wrOutStep at h
    simp only [ht, ne_eq, not_true_eq_false, if_false, andThen] at h
    cases h1 : makedirs fs0 (dirname a.out_file) with
    | error e =>
        rw [h1] at h
        simp at h
    | ok fs1 =>
        rw [h1] at h
        try dsimp only at h
        cases h3 : writeFile fs1 a.out_file (outPayload fs1 a.directory) with
        | error e =>
            rw [h3] at h
            simp at h
        | ok fs3 =>
            rw [h3] at h
            try dsimp only at h
            injection h with hfs htr
            injection hfs with hfs
            refine ⟨fs1, fs1, fs3, ?_, by simp [ht], h3, ?_, ?_⟩
            · first
                | exact h1
                | rfl
            · simp only [ht, ne_eq, not_true_eq_false, if_false]
              rw [hfs]
            · rw [← htr]
              unfold runTrace
              simp [ht]
  · unfold run mdStep wrOutStep wrTrigStep at h
    simp only [ne_eq, ht, not_false_eq_true, if_true, andThen] at h
    cases h1 : makedirs fs0 (dirname a.out_file) with
    | error e =>
        rw [h1] at h
        simp at h
    | ok fs1 =>
        rw [h1] at h
        try dsimp only at h
        cases h2 : makedirs fs1 (dirname a.trigger_file) with
        | error e =>
            rw [h2] at h
            simp at h
        | ok fs2 =>
            rw [h2] at h
            try dsimp only at h
            cases h3 : writeFile fs2 a.out_file (outPayload fs2 a.directory) with
            | error e =>
                rw [h3] at h
                simp at h
            | ok fs3 =>
                rw [h3] at h
                try dsimp only at h
                cases h4 : writeFile fs3 a.trigger_file "" with
                | error e =>
                    rw [h4] at h
                    simp at h
                | ok fs4 =>
                    rw [h4] at h
                    try dsimp only at h
                    injection h with hfs htr
                    injection hfs with hfs
                    refine ⟨fs1, fs2, fs3, ?_, ?_, h3, ?_, ?_⟩
                    · first
                        | exact h1
                        | rfl
                    · simp only [ne_eq, ht, not_false_eq_true, if_true]
                      exact h2
                    · simp only [ne_eq, ht, not_false_eq_true, if_true]
                      rw [h4, hfs]
                    · rw [← htr]
                      unfold runTrace
                      simp [ht]

theorem pathJoin_eq {a b : String} (hb : headIsSlash b = false) (ha : a ≠ "")
    (ha2 : lastIsSlash a = false) : pathJoin a b = a ++ "/" ++ b := by
  unfold pathJoin
  rw [if_neg (by rw [hb]; simp)]
  rw [if_neg (by
    rintro (h | h)
    · exact ha h
    · rw [ha2] at h; exact absurd h (by simp))]

theorem scanSubdirs_mem {fs : FS} {base : String} (hdir : isdir fs base = true)
    (p : String) :
    p ∈ scanSubdirs fs base ↔
      ∃ item, item ∈ fs.listing base ∧ p = pathJoin base item ∧ isdir fs p = true := by
  unfold scanSubdirs
  rw [if_pos hdir]
  rw [List.mem_filterMap]
  constructor
  · rintro ⟨a, ha, hf⟩
    by_cases hd : isdir fs (pathJoin base a) = true
    · rw [if_pos hd] at hf
      injection hf with hf
      refine ⟨a, ha, hf.symm, ?_⟩
      rw [← hf]
      exact hd
    · rw [if_neg hd] at hf
      exact absurd hf (by simp)
  · rintro ⟨a, ha, hp, hd⟩
    refine ⟨a, ha, ?_⟩
    rw [hp] at hd
    rw [if_pos hd, hp]

/-- The shared example filesystem: a target `/d` with subdirectory `a`, plain
file `b`, symlink-to-directory `c`, plus parents `/o` and `/t` for the two
output files. -/
def fsW : FS :=
  { entry := fun q =>
      if q = "/" then some Entry.dir
      else if q = "/d" then some Entry.dir
      else if q = "/d/a" then some Entry.dir
      else if q = "/d/b" then some (Entry.file "x")
      else if q = "/d/c" then some Entry.symlinkToDir
      else if q = "/o" then some Entry.dir
      else if q = "/t" then some Entry.dir
      else none,
    listing := fun q => if q = "/d" then ["c", "b", "a"] else [] }

/-- The shared example invocation. -/
def aW : Args :=
  { directory := "/d", out_file := "/o/out.txt", trigger_file := "/t/trig" }

/-- The state after running the script on the example filesystem. -/
def fsW2 : FS :=
  addNode (addNode fsW "/o/out.txt" (Entry.file "/d/a\n/d/c")) "/t/trig" (Entry.file "")

/-- The trace of the example run. -/
def trW : List Event :=
  [Event.evMakedirs "/o", Event.evMakedirs "/t", Event.evScan "/d",
   Event.evWriteOut "/o/out.txt" "/d/a\n/d/c", Event.evWriteTrigger "/t/trig"]

theorem runW_eq : run fsW aW = (Except.ok fsW2, trW) := rfl

/-- C2: for a target directory, the retained listing contains exactly the joins
of the target path with the names of those immediate children whose joined path
is itself a directory; symlinks to directories are retained, plain files and
symlinks to files are excluded, and every retained path is the target path plus
a single slash-free component (nothing deeper than one level). -/
theorem c2_retained_exactly_immediate_subdirs (fs : FS) (base : String)
    (hdir : isdir fs base = true) (hbase : base ≠ "")
    (hslash : lastIsSlash base = false)
    (hnames : ∀ n ∈ fs.listing base,
      headIsSlash n = false ∧ n.data.contains '/' = false) :
    (∀ p, p ∈ scanSubdirs fs base ↔
      ∃ item, item ∈ fs.listing base ∧ p = pathJoin base item ∧ isdir fs p = true)
    ∧ (∀ p ∈ scanSubdirs fs base, ∃ item, item ∈ fs.listing base
        ∧ item.data.contains '/' = false ∧ p = base ++ "/" ++ item)
    ∧ (∀ item ∈ fs.listing base,
        fs.entry (pathJoin base item) = some Entry.symlinkToDir →
        pathJoin base item ∈ scanSubdirs fs base)
    ∧ (∀ item ∈ fs.listing base, ∀ c,
        (fs.entry (pathJoin base item) = some (Entry.file c)
          ∨ fs.entry (pathJoin base item) = some (Entry.symlinkToFile c)) →
        pathJoin base item ∉ scanSubdirs fs base) := by
  refine ⟨scanSubdirs_mem hdir, ?_, ?_, ?_⟩
  · intro p hp
    obtain ⟨item, hi, hpj, _⟩ := (scanSubdirs_mem hdir p).1 hp
    exact ⟨item, hi, (hnames item hi).2,
      by rw [hpj, pathJoin_eq (hnames item hi).1 hbase hslash]⟩
  · intro item hi hsym
    refine (scanSubdirs_mem hdir _).2 ⟨item, hi, rfl, ?_⟩
    unfold isdir
    rw [hsym]
  · intro item hi c hfc hmem
    obtain ⟨_, _, _, hd⟩ := (scanSubdirs_mem hdir _).1 hmem
    unfold isdir at hd
    rcases hfc with h | h <;> rw [h] at hd <;> exact absurd hd (by simp)

theorem c2_retained_exactly_immediate_subdirs_witness :
    ("/d/c" ∈ scanSubdirs fsW "/d" ↔
      ∃ item, item ∈ fsW.listing "/d" ∧ "/d/c" = pathJoin "/d" item
        ∧ isdir fsW "/d/c" = true)
    ∧ ("/d/b" ∉ scanSubdirs fsW "/d") :=
  ⟨(c2_retained_exactly_immediate_subdirs fsW "/d" rfl (by decide) (by decide)
      (by decide)).1 "/d/c",
   (c2_retained_exactly_immediate_subdirs fsW "/d" rfl (by decide) (by decide)
      (by decide)).2.2.2 "b" (by decide) "x" (Or.inl rfl)⟩

/-- C1 (amended): after a successful run in which the trigger path is empty or
differs from the output path, the output file holds exactly the retained
subdirectory paths (as of the post-makedirs state the scan reads), sorted
ascending in code-point (byte-wise, locale-independent) order, joined by a
single newline with no trailing newline, and holds the empty string when the
retained list is empty. -/
theorem c1_output_contents {fs0 fs1 fs2 fs' : FS} {a : Args} {tr : List Event}
    (h1 : makedirs fs0 (dirname a.out_file) = Except.ok fs1)
    (h2 : (if a.trigger_file ≠ "" then makedirs fs1 (dirname a.trigger_file)
           else Except.ok fs1) = Except.ok fs2)
    (hrun : run fs0 a = (Except.ok fs', tr))
    (hne : a.trigger_file = "" ∨ a.trigger_file ≠ a.out_file) :
    fs'.entry a.out_file = some (Entry.file (outPayload fs2 a.directory))
    ∧ List.Sorted pyLe (sortedListing fs2 a.directory)
    ∧ (sortedListing fs2 a.directory).Perm (scanSubdirs fs2 a.directory)
    ∧ (scanSubdirs fs2 a.directory = [] →
        fs'.entry a.out_file = some (Entry.file "")) := by
  obtain ⟨fs1x, fs2x, fs3x, g1, g2, g3, g4, _⟩ := run_ok_cases hrun
  have e1 : fs1 = fs1x := by
    have := h1.symm.trans g1
    injection this
  subst e1
  have e2 : fs2 = fs2x := by
    have := h2.symm.trans g2
    injection this
  subst e2
  have hmain : fs'.entry a.out_file = some (Entry.file (outPayload fs2 a.directory)) := by
    by_cases ht : a.trigger_file = ""
    · simp only [ht, ne_eq, not_true_eq_false, if_false] at g4
      injection g4 with g4
      rw [← g4]
      exact writeFile_ok_entry_self g3
    · simp only [ne_eq, ht, not_false_eq_true, if_true] at g4
      have hot : a.out_file ≠ a.trigger_file := (hne.resolve_left ht).symm
      rw [writeFile_ok_entry_ne g4 hot]
      exact writeFile_ok_entry_self g3
  refine ⟨hmain, List.sorted_insertionSort pyLe _, List.perm_insertionSort pyLe _, ?_⟩
  intro he
  have hp : outPayload fs2 a.directory = "" := by
    unfold outPayload sortedListing sortStrings
    rw [he]
    rfl
  rw [hp] at hmain
  exact hmain

theorem c1_output_contents_witness :
    fsW2.entry aW.out_file = some (Entry.file (outPayload fsW aW.directory)) :=
  (@c1_output_contents fsW fsW fsW fsW2 aW trW rfl rfl runW_eq (Or.inr (by decide))).1

/-- The final state of the run in which the output path and the trigger path
coincide: the trigger write overwrites the listing. -/
def fsC1fin : FS :=
  { entry := fun q =>
      if q = "/o/f" then some (Entry.file "")
      else (addNode fsW "/o/f" (Entry.file "/d/a\n/d/c")).entry q,
    listing := (addNode fsW "/o/f" (Entry.file "/d/a\n/d/c")).listing }

/-- C1 counterexample: a successful run whose trigger path equals the output
path ends with the output file empty even though the retained sorted listing is
non-empty, so the output file does not hold the sorted listing. -/
theorem c1_same_path_counterexample :
    run fsW { directory := "/d", out_file := "/o/f", trigger_file := "/o/f" }
      = (Except.ok fsC1fin,
         [Event.evMakedirs "/o", Event.evMakedirs "/o", Event.evScan "/d",
          Event.evWriteOut "/o/f" "/d/a\n/d/c", Event.evWriteTrigger "/o/f"])
    ∧ sortedListing fsW "/d" = ["/d/a", "/d/c"]
    ∧ outPayload fsW "/d" = "/d/a\n/d/c"
    ∧ fsC1fin.entry "/o/f" = some (Entry.file "")
    ∧ ("" : String) ≠ "/d/a\n/d/c" :=
  ⟨rfl, by decide, by decide, by decide, by decide⟩

/-- C3: when the target path is not a directory at scan time, the run behaves
exactly as for an empty listing: the scan collects nothing, the run still
succeeds (provided the file operations themselves succeed, which do not depend
on the target), the output file is written with zero bytes, and the trigger
file is still created. -/
theorem c3_missing_target_like_empty {fs0 fs1 fs2 fs3 fs4 : FS} {a : Args}
    (h1 : makedirs fs0 (dirname a.out_file) = Except.ok fs1)
    (h2 : (if a.trigger_file ≠ "" then makedirs fs1 (dirname a.trigger_file)
           else Except.ok fs1) = Except.ok fs2)
    (hdir : isdir fs2 a.directory = false)
    (h3 : writeFile fs2 a.out_file "" = Except.ok fs3)
    (h4 : (if a.trigger_file ≠ "" then writeFile fs3 a.trigger_file ""
           else Except.ok fs3) = Except.ok fs4) :
    run fs0 a = (Except.ok fs4, runTrace a "")
    ∧ scanSubdirs fs2 a.directory = []
    ∧ fs4.entry a.out_file = some (Entry.file "")
    ∧ (a.trigger_file ≠ "" → fs4.entry a.trigger_file = some (Entry.file "")) := by
  have hscan : scanSubdirs fs2 a.directory = [] := by
    unfold scanSubdirs
    rw [hdir]
    rfl
  have hpay : outPayload fs2 a.directory = "" := by
    unfold outPayload sortedListing sortStrings
    rw [hscan]
    rfl
  have hrun : run fs0 a = (Except.ok fs4, runTrace a (outPayload fs2 a.directory)) :=
    run_eq_of_steps h1 h2 (by rw [hpay]; exact h3) h4
  rw [hpay] at hrun
  refine ⟨hrun, hscan, ?_, ?_⟩
  · by_cases ht : a.trigger_file = ""
    · simp only [ht, ne_eq, not_true_eq_false, if_false] at h4
      injection h4 with h4
      rw [← h4]
      exact writeFile_ok_entry_self h3
    · simp only [ne_eq, ht, not_false_eq_true, if_true] at h4
      by_cases heq : a.out_file = a.trigger_file
      · rw [heq]
        exact writeFile_ok_entry_self h4
      · rw [writeFile_ok_entry_ne h4 heq]
        exact writeFile_ok_entry_self h3
  · intro ht
    simp only [ne_eq, ht, not_false_eq_true, if_true] at h4
    exact writeFile_ok_entry_self h4

/-- Intermediate state of the missing-target example: empty output written. -/
def fsC3a : FS := addNode fsW "/o/out.txt" (Entry.file "")

/-- Final state of the missing-target example: trigger created. -/
def fsC3b : FS := addNode fsC3a "/t/trig" (Entry.file "")

/-- The missing-target example invocation. -/
def aC3 : Args :=
  { directory := "/missing", out_file := "/o/out.txt", trigger_file := "/t/trig" }

theorem c3_missing_target_like_empty_witness :
    run fsW aC3 = (Except.ok fsC3b, runTrace aC3 "")
    ∧ scanSubdirs fsW "/missing" = []
    ∧ fsC3b.entry "/o/out.txt" = some (Entry.file "")
    ∧ (aC3.trigger_file ≠ "" → fsC3b.entry "/t/trig" = some (Entry.file "")) :=
  @c3_missing_target_like_empty fsW fsW fsW fsC3a fsC3b aC3 rfl rfl rfl rfl rfl

/-- C4: the written listing is a function of the entry map and of the set of
child names the enumeration returns, not of their order: two filesystems with
the same entries whose enumerations of the target are permutations of one
another yield identical sorted listings and identical output payloads (and the
run itself is a pure function of its inputs, so repeating it reproduces the
same files byte for byte). -/
theorem c4_output_independent_of_enumeration_order (fsA fsB : FS) (base : String)
    (hE : fsA.entry = fsB.entry)
    (hP : (fsA.listing base).Perm (fsB.listing base)) :
    outPayload fsA base = outPayload fsB base
    ∧ sortedListing fsA base = sortedListing fsB base := by
  have hdeq : isdir fsA base = isdir fsB base := by
    unfold isdir
    rw [hE]
  have hscan : (scanSubdirs fsA base).Perm (scanSubdirs fsB base) := by
    unfold scanSubdirs
    by_cases hd : isdir fsB base = true
    · rw [hdeq, if_pos hd]
      rw [if_pos hd]
      have hfun : (fun item => if isdir fsA (pathJoin base item)
            then some (pathJoin base item) else none)
          = (fun item => if isdir fsB (pathJoin base item)
            then some (pathJoin base item) else none) := by
        funext item
        unfold isdir
        rw [hE]
      rw [hfun]
      exact hP.filterMap _
    · rw [hdeq, if_neg hd]
      rw [if_neg hd]
  have hperm : (sortedListing fsA base).Perm (sortedListing fsB base) :=
    ((List.perm_insertionSort pyLe _).trans hscan).trans
      (List.perm_insertionSort pyLe _).symm
  have heq : sortedListing fsA base = sortedListing fsB base :=
    List.eq_of_perm_of_sorted hperm
      (List.sorted_insertionSort pyLe _) (List.sorted_insertionSort pyLe _)
  exact ⟨congrArg (String.intercalate "\n") heq, heq⟩

/-- The example filesystem with the target enumerated in a different order. -/
def fsWalt : FS :=
  { entry := fsW.entry,
    listing := fun q => if q = "/d" then ["a", "b", "c"] else [] }

theorem c4_output_independent_of_enumeration_order_witness :
    outPayload fsW "/d" = outPayload fsWalt "/d" :=
  (c4_output_independent_of_enumeration_order fsW fsWalt "/d" rfl (by decide)).1

/-- C5: after a successful run with a non-empty trigger path the trigger file
holds exactly zero bytes, whatever was there before and however many
subdirectories were found; with an empty trigger path the run performs no
trigger-related step at all: its trace is exactly the output-parent makedirs,
the scan, and the output write. -/
theorem c5_trigger_empty_file {fs0 fs' : FS} {a : Args} {tr : List Event}
    (hrun : run fs0 a = (Except.ok fs', tr)) :
    (a.trigger_file ≠ "" → fs'.entry a.trigger_file = some (Entry.file ""))
    ∧ (a.trigger_file = "" → ∃ c, tr = [Event.evMakedirs (dirname a.out_file),
        Event.evScan a.directory, Event.evWriteOut a.out_file c]) := by
  obtain ⟨fs1, fs2, fs3, _, _, _, g4, gtr⟩ := run_ok_cases hrun
  constructor
  · intro ht
    simp only [ne_eq, ht, not_false_eq_true, if_true] at g4
    exact writeFile_ok_entry_self g4
  · intro ht
    refine ⟨outPayload fs2 a.directory, ?_⟩
    rw [gtr]
    unfold runTrace
    simp [ht]

theorem c5_trigger_empty_file_witness :
    fsW2.entry aW.trigger_file = some (Entry.file "") :=
  (c5_trigger_empty_file runW_eq).1 (by decide)

/-- C6: in every execution, successful or not, a trigger-file write event is
strictly preceded in the trace by the output-file write event, and the only
output-file write the program ever performs carries the complete sorted
newline-joined listing computed from the post-makedirs state; hence the
trigger's existence implies the listing was completely written first. -/
theorem c6_trigger_write_after_listing_write {fs0 : FS} {a : Args}
    {res : Except Err FS} {tr : List Event}
    (hrun : run fs0 a = (res, tr)) :
    (∀ j : Nat, tr[j]? = some (Event.evWriteTrigger a.trigger_file) →
      ∃ (i : Nat) (c : String), i < j ∧ tr[i]? = some (Event.evWriteOut a.out_file c))
    ∧ (∀ fs1 fs2,
        makedirs fs0 (dirname a.out_file) = Except.ok fs1 →
        (if a.trigger_file ≠ "" then makedirs fs1 (dirname a.trigger_file)
          else Except.ok fs1) = Except.ok fs2 →
        ∀ (i : Nat) (c : String), tr[i]? = some (Event.evWriteOut a.out_file c) →
        c = outPayload fs2 a.directory) := by
  by_cases ht : a.trigger_file = ""
  · unfold run mdStep wrOutStep at hrun
    simp only [ht, ne_eq, not_true_eq_false, if_false, andThen] at hrun
    cases g1 : makedirs fs0 (dirname a.out_file) with
    | error e =>
        rw [g1] at hrun
        try dsimp only at hrun
        injection hrun with hres htr
        subst htr
        constructor
        · intro j hj
          exact absurd (List.getElem?_mem hj) (by simp)
        · intro fs1 fs2 h1 h2 i c hic
          exact absurd h1 (by simp)
    | ok fs1x =>
        rw [g1] at hrun
        try dsimp only at hrun
        cases g3 : writeFile fs1x a.out_file (outPayload fs1x a.directory) with
        | error e =>
            rw [g3] at hrun
            try dsimp only at hrun
            injection hrun with hres htr
            simp only [List.singleton_append, List.cons_append, List.nil_append] at htr
            subst htr
            constructor
            · intro j hj
              exact absurd (List.getElem?_mem hj) (by simp)
            · intro fs1 fs2 h1 h2 i c hic
              injection h1 with h1
              subst h1
              simp only [ht, ne_eq, not_true_eq_false, if_false] at h2
              injection h2 with h2
              subst h2
              rcases i with _ | _ | _ | i
              · simp at hic
              · simp at hic
              · simp at hic
                exact hic.symm
              · simp at hic
        | ok fs3x =>
            rw [g3] at hrun
            try dsimp only at hrun
            injection hrun with hres htr
            simp only [List.singleton_append, List.cons_append, List.nil_append] at htr
            subst htr
            constructor
            · intro j hj
              exact absurd (List.getElem?_mem hj) (by simp)
            · intro fs1 fs2 h1 h2 i c hic
              injection h1 with h1
              subst h1
              simp only [ht, ne_eq, not_true_eq_false, if_false] at h2
              injection h2 with h2
              subst h2
              rcases i with _ | _ | _ | i
              · simp at hic
              · simp at hic
              · simp at hic
                exact hic.symm
              · simp at hic
  · unfold run mdStep wrOutStep wrTrigStep at hrun
    simp only [ne_eq, ht, not_false_eq_true, if_true, andThen] at hrun
    cases g1 : makedirs fs0 (dirname a.out_file) with
    | error e =>
        rw [g1] at hrun
        try dsimp only at hrun
        injection hrun with hres htr
        subst htr
        constructor
        · intro j hj
          exact absurd (List.getElem?_mem hj) (by simp)
        · intro fs1 fs2 h1 h2 i c hic
          exact absurd h1 (by simp)
    | ok fs1x =>
        rw [g1] at hrun
        try dsimp only at hrun
        cases g2 : makedirs fs1x (dirname a.trigger_file) with
        | error e =>
            rw [g2] at hrun
            try dsimp only at hrun
            injection hrun with hres htr
            simp only [List.singleton_append, List.cons_append, List.nil_append] at htr
            subst htr
            constructor
            · intro j hj
              exact absurd (List.getElem?_mem hj) (by simp)
            · intro fs1 fs2 h1 h2 i c hic
              injection h1 with h1
              subst h1
              simp only [ne_eq, ht, not_false_eq_true, if_true] at h2
              rw [g2] at h2
              exact absurd h2 (by simp)
        | ok fs2x =>
            rw [g2] at hrun
            try dsimp only at hrun
            cases g3 : writeFile fs2x a.out_file (outPayload fs2x a.directory) with
            | error e =>
                rw [g3] at hrun
                try dsimp only at hrun
                injection hrun with hres htr
                simp only [List.singleton_append, List.cons_append, List.nil_append] at htr
                subst htr
                constructor
                · intro j hj
                  exact absurd (List.getElem?_mem hj) (by simp)
                · intro fs1 fs2 h1 h2 i c hic
                  injection h1 with h1
                  subst h1
                  simp only [ne_eq, ht, not_false_eq_true, if_true] at h2
                  rw [g2] at h2
                  injection h2 with h2
                  subst h2
                  rcases i with _ | _ | _ | _ | i
                  · simp at hic
                  · simp at hic
                  · simp at hic
                  · simp at hic
                    exact hic.symm
                  · simp at hic
            | ok fs3x =>
                rw [g3] at hrun
                try dsimp only at hrun
                cases g4 : writeFile fs3x a.trigger_file "" with
                | error e =>
                    rw [g4] at hrun
                    try dsimp only at hrun
                    injection hrun with hres htr
                    simp only [List.singleton_append, List.cons_append,
                      List.nil_append] at htr
                    subst htr
                    constructor
                    · intro j hj
                      refine ⟨3, outPayload fs2x a.directory, ?_, rfl⟩
                      rcases j with _ | _ | _ | _ | _ | j
                      · simp at hj
                      · simp at hj
                      · simp at hj
                      · simp at hj
                      · omega
                      · simp at hj
                    · intro fs1 fs2 h1 h2 i c hic
                      injection h1 with h1
                      subst h1
                      simp only [ne_eq, ht, not_false_eq_true, if_true] at h2
                      rw [g2] at h2
                      injection h2 with h2
                      subst h2
                      rcases i with _ | _ | _ | _ | _ | i
                      · simp at hic
                      · simp at hic
                      · simp at hic
                      · simp at hic
                        exact hic.symm
                      · simp at hic
                      · simp at hic
                | ok fs4x =>
                    rw [g4] at hrun
                    try dsimp only at hrun
                    injection hrun with hres htr
                    simp only [List.singleton_append, List.cons_append,
                      List.nil_append] at htr
                    subst htr
                    constructor
                    · intro j hj
                      refine ⟨3, outPayload fs2x a.directory, ?_, rfl⟩
                      rcases j with _ | _ | _ | _ | _ | j
                      · simp at hj
                      · simp at hj
                      · simp at hj
                      · simp at hj
                      · omega
                      · simp at hj
                    · intro fs1 fs2 h1 h2 i c hic
                      injection h1 with h1
                      subst h1
                      simp only [ne_eq, ht, not_false_eq_true, if_true] at h2
                      rw [g2] at h2
                      injection h2 with h2
                      subst h2
                      rcases i with _ | _ | _ | _ | _ | i
                      · simp at hic
                      · simp at hic
                      · simp at hic
                      · simp at hic
                        exact hic.symm
                      · simp at hic
                      · simp at hic

theorem c6_trigger_write_after_listing_write_witness :
    ∃ (i : Nat) (c : String), i < 4 ∧ trW[i]? = some (Event.evWriteOut aW.out_file c) :=
  (c6_trigger_write_after_listing_write runW_eq).1 4 rfl

theorem andThen_trace (m : M) (f : FS → M) :
    ∃ rest, (andThen m f).2 = m.2 ++ rest := by
  rcases m with ⟨r, tr0⟩
  cases r with
  | error e => exact ⟨[], (List.append_nil tr0).symm⟩
  | ok fs =>
      rcases hf : f fs with ⟨r2, tr2⟩
      refine ⟨tr2, ?_⟩
      unfold andThen
      dsimp only
      rw [hf]

theorem run_trace_head {fs0 : FS} {a : Args} {res : Except Err FS} {tr : List Event}
    (h : run fs0 a = (res, tr)) :
    ∃ rest, tr = Event.evMakedirs (dirname a.out_file) :: rest := by
  obtain ⟨rest, hrest⟩ := andThen_trace (mdStep fs0 (dirname a.out_file))
    (fun fs1 =>
      andThen (if a.trigger_file ≠ "" then mdStep fs1 (dirname a.trigger_file)
               else (Except.ok fs1, [])) (fun fs2 =>
      andThen ((Except.ok fs2, [Event.evScan a.directory]) : M) (fun fs2b =>
      andThen (wrOutStep fs2b a.out_file (outPayload fs2b a.directory)) (fun fs3 =>
      if a.trigger_file ≠ "" then wrTrigStep fs3 a.trigger_file
      else (Except.ok fs3, [])))))
  refine ⟨rest, ?_⟩
  have htr : tr = (run fs0 a).2 := by rw [h]
  rw [htr]
  exact hrest

/-- C7: before anything else the program ensures the output file's parent
directory exists: a successful `makedirs` leaves its argument a directory
(stated for arguments whose effective tail is not `.`, the case `os.makedirs`
skips by design); `makedirs` on an already existing directory succeeds without
error and changes nothing; and in every execution the very first step of the
trace is the makedirs of the output parent, so it precedes any output write. -/
theorem c7_output_parent_created_first :
    (∀ (fs fs' : FS) (p : String), makedirs fs p = Except.ok fs' →
      (adjSplit p).2 ≠ "." → isdir fs' p = true)
    ∧ (∀ (fs : FS) (p : String), isdir fs p = true →
        (pexists fs (adjSplit p).1 = true ∨ (adjSplit p).1 = ""
          ∨ (adjSplit p).2 = "") →
        makedirs fs p = Except.ok fs)
    ∧ (∀ (fs0 : FS) (a : Args) (res : Except Err FS) (tr : List Event),
        run fs0 a = (res, tr) →
        tr[0]? = some (Event.evMakedirs (dirname a.out_file))
        ∧ (∀ (i : Nat) (c : String),
            tr[i]? = some (Event.evWriteOut a.out_file c) → 0 < i)) := by
  refine ⟨fun fs fs' p h ht => makedirs_ok_isdir h ht,
    fun fs p hd hside => makedirs_noop hd hside, ?_⟩
  intro fs0 a res tr hrun
  obtain ⟨rest, hr⟩ := run_trace_head hrun
  subst hr
  constructor
  · simp
  · intro i c hic
    cases i with
    | zero => simp at hic
    | succ n => omega

/-- The state created by `makedirs` on the fresh path `/n/m` of the example. -/
def fsC7 : FS := addNode (addNode fsW "/n" Entry.dir) "/n/m" Entry.dir

theorem c7_output_parent_created_first_witness :
    isdir fsC7 "/n/m" = true
    ∧ makedirs fsW "/o" = Except.ok fsW
    ∧ trW[0]? = some (Event.evMakedirs (dirname aW.out_file)) :=
  ⟨c7_output_parent_created_first.1 fsW fsC7 "/n/m" rfl (by decide),
   c7_output_parent_created_first.2.1 fsW "/o" rfl (Or.inl rfl),
   (c7_output_parent_created_first.2.2 fsW aW (Except.ok fsW2) trW runW_eq).1⟩

/-- C8: when the output file path has no directory component, the initial
`os.makedirs(os.path.dirname(out_file))` call receives the empty string and
raises; the run aborts with only that first step attempted, before the target
directory is enumerated and before the output or trigger file is written. -/
theorem c8_bare_output_filename_aborts {fs0 : FS} {a : Args}
    (h0 : fs0.entry "" = none) (hd : dirname a.out_file = "") :
    run fs0 a = (Except.error Err.fileNotFound, [Event.evMakedirs ""]) := by
  have hm : makedirs fs0 "" = Except.error Err.fileNotFound := by
    rw [makedirs_eq]
    rw [if_neg (by
      rintro ⟨hg1, _, _⟩
      exact hg1 (by decide))]
    unfold mkdirEx mkdir
    rw [if_pos rfl]
    have : isdir fs0 "" = false := by
      unfold isdir
      rw [h0]
    rw [this]
    rfl
  unfold run mdStep
  rw [hd, hm]
  rfl

/-- The example invocation whose output path is a bare filename. -/
def aC8 : Args :=
  { directory := "/d", out_file := "out.txt", trigger_file := "/t/trig" }

theorem c8_bare_output_filename_aborts_witness :
    run fsW aC8 = (Except.error Err.fileNotFound, [Event.evMakedirs ""]) :=
  c8_bare_output_filename_aborts rfl rfl

/-- C9 (amended): a successful run touches only the makedirs chains of the two
parent directories and the two files themselves: the entry at every path
outside `touchedPaths` is unchanged, and the enumeration of every directory
that is not a parent of a touched path is unchanged.  (The target directory
itself is not exempt: when an output path lies inside the target, the makedirs
step creates a new subdirectory there, see the counterexample.) -/
theorem c9_effects_confined {fs0 fs' : FS} {a : Args} {tr : List Event}
    (hrun : run fs0 a = (Except.ok fs', tr)) :
    (∀ q, q ∉ touchedPaths a → fs'.entry q = fs0.entry q)
    ∧ (∀ q, q ∉ touchedParents a → fs'.listing q = fs0.listing q) := by
  obtain ⟨fs1, fs2, fs3, g1, g2, g3, g4, _⟩ := run_ok_cases hrun
  by_cases ht : a.trigger_file = ""
  · simp only [ht, ne_eq, not_true_eq_false, if_false] at g2 g4
    injection g2 with g2
    subst g2
    injection g4 with g4
    constructor
    · intro q hq
      have hq1 : q ∉ mdTargets (dirname a.out_file) :=
        fun hm => hq (by simp [touchedPaths, ht, hm])
      have hq2 : q ≠ a.out_file :=
        fun hm => hq (by simp [touchedPaths, ht, hm])
      rw [← g4]
      rw [writeFile_ok_entry_ne g3 hq2]
      exact makedirs_entry_frame g1 hq1
    · intro q hq
      have hq1 : q ∉ (mdTargets (dirname a.out_file)).map (fun r => (splitPath r).1) :=
        fun hm => hq (by
          simp only [touchedParents, touchedPaths, ht, ne_eq, not_true_eq_false,
            if_false, List.append_nil, List.map_append, List.mem_append]
          simp at hm ⊢
          exact Or.inl hm)
      have hq2 : q ≠ (splitPath a.out_file).1 :=
        fun hm => hq (by
          simp only [touchedParents, touchedPaths, ht, ne_eq, not_true_eq_false,
            if_false, List.append_nil, List.map_append, List.mem_append]
          simp [hm])
      rw [← g4]
      rw [writeFile_ok_listing_ne g3 hq2]
      exact makedirs_listing_frame g1 hq1
  · simp only [ne_eq, ht, not_false_eq_true, if_true] at g2 g4
    constructor
    · intro q hq
      have hq1 : q ∉ mdTargets (dirname a.out_file) :=
        fun hm => hq (by simp [touchedPaths, ht, hm])
      have hq2 : q ∉ mdTargets (dirname a.trigger_file) :=
        fun hm => hq (by simp [touchedPaths, ht, hm])
      have hq3 : q ≠ a.out_file :=
        fun hm => hq (by simp [touchedPaths, ht, hm])
      have hq4 : q ≠ a.trigger_file :=
        fun hm => hq (by simp [touchedPaths, ht, hm])
      rw [writeFile_ok_entry_ne g4 hq4]
      rw [writeFile_ok_entry_ne g3 hq3]
      rw [makedirs_entry_frame g2 hq2]
      exact makedirs_entry_frame g1 hq1
    · intro q hq
      have hall : ∀ r, r ∈ touchedPaths a → q ≠ (splitPath r).1 := by
        intro r hr he
        exact hq (by
          simp only [touchedParents]
          rw [he]
          exact List.mem_map_of_mem _ hr)
      have hq1 : q ∉ (mdTargets (dirname a.out_file)).map (fun r => (splitPath r).1) := by
        intro hm
        simp only [List.mem_map] at hm
        obtain ⟨r, hr, he⟩ := hm
        exact hall r (by simp [touchedPaths, ht, hr]) he.symm
      have hq2 : q ∉ (mdTargets (dirname a.trigger_file)).map (fun r => (splitPath r).1) := by
        intro hm
        simp only [List.mem_map] at hm
        obtain ⟨r, hr, he⟩ := hm
        exact hall r (by simp [touchedPaths, ht, hr]) he.symm
      have hq3 : q ≠ (splitPath a.out_file).1 :=
        hall a.out_file (by simp [touchedPaths, ht])
      have hq4 : q ≠ (splitPath a.trigger_file).1 :=
        hall a.trigger_file (by simp [touchedPaths, ht])
      rw [writeFile_ok_listing_ne g4 hq4]
      rw [writeFile_ok_listing_ne g3 hq3]
      rw [makedirs_listing_frame g2 hq2]
      exact makedirs_listing_frame g1 hq1

theorem c9_effects_confined_witness :
    fsW2.entry "/d/a" = fsW.entry "/d/a"
    ∧ fsW2.listing "/d" = fsW.listing "/d" :=
  ⟨(c9_effects_confined runW_eq).1 "/d/a" (by decide),
   (c9_effects_confined runW_eq).2 "/d" (by decide)⟩

/-- The invocation whose output files live inside the target directory. -/
def aC9 : Args :=
  { directory := "/d", out_file := "/d/sub/o", trigger_file := "/d/sub/t" }

/-- State after the makedirs step of the nested-output run: `/d/sub` created. -/
def fsC9a : FS := addNode fsW "/d/sub" Entry.dir

/-- State after the output write of the nested-output run. -/
def fsC9b : FS := addNode fsC9a "/d/sub/o" (Entry.file "/d/a\n/d/c\n/d/sub")

/-- Final state of the nested-output run. -/
def fsC9c : FS := addNode fsC9b "/d/sub/t" (Entry.file "")

/-- C9 counterexample: when the output paths lie inside the target directory,
the run creates a new entry `/d/sub` under the target and extends the target's
enumeration, so the target directory and its children are not left unchanged
(the new subdirectory even appears in the written listing). -/
theorem c9_target_changed_counterexample :
    run fsW aC9 = (Except.ok fsC9c,
      [Event.evMakedirs "/d/sub", Event.evMakedirs "/d/sub", Event.evScan "/d",
       Event.evWriteOut "/d/sub/o" "/d/a\n/d/c\n/d/sub",
       Event.evWriteTrigger "/d/sub/t"])
    ∧ fsW.entry "/d/sub" = none
    ∧ fsC9c.entry "/d/sub" = some Entry.dir
    ∧ fsW.listing "/d" = ["c", "b", "a"]
    ∧ fsC9c.listing "/d" = ["c", "b", "a", "sub"]
    ∧ outPayload fsC9a "/d" = "/d/a\n/d/c\n/d/sub" :=
  ⟨rfl, rfl, by decide, by decide, by decide, by decide⟩

theorem parseKnown_all_unrec : ∀ (extra : List String) (opts : POpts) (rem : List String),
    (∀ t ∈ extra, recognizedTok t = false) →
    parseKnown extra opts rem = parseKnown [] opts (extra.reverse ++ rem) := by
  intro extra
  induction extra with
  | nil => intro opts rem _; rfl
  | cons t extra ih =>
      intro opts rem hall
      have ht : recognizedTok t = false := hall t (List.mem_cons_self t extra)
      have hrest : ∀ u ∈ extra, recognizedTok u = false :=
        fun u hu => hall u (List.mem_cons_of_mem t hu)
      have hstep : parseKnown (t :: extra) opts rem = parseKnown extra opts (t :: rem) := by
        by_cases hlo : isLongOpt t
        · have hm : optMatches t = [] := by
            unfold recognizedTok at ht
            rw [hlo] at ht
            simp only [Bool.true_and, Bool.not_eq_true'] at ht
            exact List.isEmpty_iff.mp (by
              cases hb : (optMatches t).isEmpty
              · rw [hb] at ht; exact absurd ht (by simp)
              · rfl)
          simp only [parseKnown]
          rw [if_pos hlo]
          simp only [hm]
        · simp only [parseKnown]
          rw [if_neg hlo]
      rw [hstep, ih opts (t :: rem) hrest]
      have hl : extra.reverse ++ (t :: rem) = (t :: extra).reverse ++ rem := by
        simp
      rw [hl]

theorem parseKnown_append_unrec : ∀ (n : Nat) (argv : List String), argv.length < n →
    ∀ (opts : POpts) (rem : List String) (a : Args) (r : List String)
      (extra : List String),
    parseKnown argv opts rem = Except.ok (a, r) →
    (∀ t ∈ extra, recognizedTok t = false) →
    parseKnown (argv ++ extra) opts rem = Except.ok (a, r ++ extra) := by
  intro n
  induction n using Nat.strong_induction_on with
  | _ n ih =>
    intro argv hlen opts rem a r extra h hex
    cases argv with
    | nil =>
        rw [List.nil_append]
        rw [parseKnown_all_unrec extra opts rem hex]
        rcases opts with ⟨od, oo, ot⟩
        cases od with
        | none => exact absurd h (by simp [parseKnown])
        | some d =>
        cases oo with
        | none => exact absurd h (by simp [parseKnown])
        | some o =>
        cases ot with
        | none => exact absurd h (by simp [parseKnown])
        | some t =>
            simp only [parseKnown] at h ⊢
            injection h with h
            injection h with h1 h2
            subst h1
            subst h2
            simp
    | cons tok rest =>
        rw [List.cons_append]
        by_cases hlo : isLongOpt tok
        · cases hm : optMatches tok with
          | nil =>
              simp only [parseKnown] at h ⊢
              rw [if_pos hlo] at h ⊢
              simp only [hm] at h ⊢
              exact ih (rest.length + 1) (by simp at hlen; omega) rest
                (Nat.lt_succ_self _) opts (tok :: rem) a r extra h hex
          | cons f fs =>
              cases fs with
              | nil =>
                  cases hv : valOf tok with
                  | some v =>
                      simp only [parseKnown] at h ⊢
                      rw [if_pos hlo] at h ⊢
                      simp only [hm, hv] at h ⊢
                      exact ih (rest.length + 1) (by simp at hlen; omega) rest
                        (Nat.lt_succ_self _) (setOpt opts f v) rem a r extra h hex
                  | none =>
                      cases rest with
                      | nil =>
                          simp only [parseKnown] at h
                          rw [if_pos hlo] at h
                          simp only [hm, hv] at h
                          exact absurd h (by simp)
                      | cons v rest2 =>
                          simp only [parseKnown] at h ⊢
                          rw [if_pos hlo] at h ⊢
                          simp only [hm, hv, List.cons_append] at h ⊢
                          exact ih (rest2.length + 1) (by simp at hlen; omega) rest2
                            (Nat.lt_succ_self _) (setOpt opts f v) rem a r extra h hex
              | cons f2 fs2 =>
                  simp only [parseKnown] at h
                  rw [if_pos hlo] at h
                  simp only [hm] at h
                  exact absurd h (by simp)
        · simp only [parseKnown] at h ⊢
          rw [if_neg hlo] at h ⊢
          exact ih (rest.length + 1) (by simp at hlen; omega) rest
            (Nat.lt_succ_self _) opts (tok :: rem) a r extra h hex

/-- C10: extra command-line tokens that argparse does not recognise as (a prefix
of) one of the three defined options are accepted without error and have no
effect: if a command line parses successfully, appending such tokens yields the
same parsed options with the extras passed through to the ignored remainder,
and the whole script computes the identical result. -/
theorem c10_unknown_args_ignored {argv extra r : List String} {a : Args} (fs0 : FS)
    (hok : parseKnown argv ⟨none, none, none⟩ [] = Except.ok (a, r))
    (hextra : ∀ t ∈ extra, recognizedTok t = false) :
    parseKnown (argv ++ extra) ⟨none, none, none⟩ [] = Except.ok (a, r ++ extra)
    ∧ mainArgv fs0 (argv ++ extra) = mainArgv fs0 argv := by
  have hp := parseKnown_append_unrec (argv.length + 1) argv (Nat.lt_succ_self _)
    ⟨none, none, none⟩ [] a r extra hok hextra
  refine ⟨hp, ?_⟩
  unfold mainArgv
  rw [hp, hok]

/-- The example command line. -/
def argvW : List String :=
  ["--directory", "/d", "--out-file", "/o/out.txt", "--trigger-file", "/t/trig"]

/-- Extra pipeline-style arguments none of which match a defined option. -/
def extraW : List String := ["positional", "-x", "--unknown-flag", "--verbose=2"]

theorem c10_unknown_args_ignored_witness :
    parseKnown (argvW ++ extraW) ⟨none, none, none⟩ []
      = Except.ok (aW, ([] : List String) ++ extraW)
    ∧ mainArgv fsW (argvW ++ extraW) = mainArgv fsW argvW :=
  c10_unknown_args_ignored fsW rfl (by decide)

end Juxta
